import Mathlib

/-!
Verification of the graaf graph container core (src/include/graaflib/graph.h).

The header declares the container's state — `adjacency_list_`, `vertices_`,
`edges_` and the monotonic counter `vertex_id_supplier_{0}` — together with the
signatures and doc comments of the public operations; the operation bodies live
in `graph.tpp`, which is not part of the sources at hand, so each operation body
below is modelled from the specification's description of that operation.
Maps are embedded as association lists (first matching key wins on lookup),
neighbor sets as duplicate-free lists.
-/

namespace Graaf

/-!
Vertex identifiers (the source's `vertex_id_t`, a `std::size_t`) are embedded
as `Nat`; edge keys (the source's `edge_id_t`) as `Nat × Nat`.
-/

/-- The `graph_spec` template parameter selecting directed or undirected
semantics (graph.h line 24). -/
inductive graph_spec where
  | DIRECTED
  | UNDIRECTED
deriving DecidableEq

/-- Lookup in an association list: the value of the first entry whose key
matches, embedding `std::unordered_map::find`/`at`. -/
def lookup {κ α : Type _} [DecidableEq κ] (k : κ) : List (κ × α) → Option α
  | [] => none
  | p :: rest => if p.1 = k then some p.2 else lookup k rest

/-- Insert-or-assign on an association list: replaces the value of an existing
key, or appends a fresh entry, embedding `std::unordered_map::operator[]`
assignment. -/
def insert_or_assign {κ α : Type _} [DecidableEq κ] (k : κ) (v : α) :
    List (κ × α) → List (κ × α)
  | [] => [(k, v)]
  | p :: rest =>
    if p.1 = k then (k, v) :: rest else p :: insert_or_assign k v rest

/-- Erase every entry with the given key, embedding
`std::unordered_map::erase(key)`. -/
def erase_key {κ α : Type _} [DecidableEq κ] (k : κ) :
    List (κ × α) → List (κ × α)
  | [] => []
  | p :: rest => if p.1 = k then erase_key k rest else p :: erase_key k rest

/-- Set-insert into a neighbor list, embedding
`std::unordered_set::insert` (no duplicates). -/
def set_insert (x : Nat) (l : List Nat) : List Nat :=
  if x ∈ l then l else l ++ [x]

/-- Set-removal from a neighbor list, embedding
`std::unordered_set::erase`. -/
def set_remove (x : Nat) : List Nat → List Nat
  | [] => []
  | y :: rest => if y = x then set_remove x rest else y :: set_remove x rest

/-- Modelled from the spec: the canonical edge key (§3 "Edge key"), standing in
for `graph.tpp`'s keying/hashing of `edge_id_t`, which is not in the sources.
Directed graphs keep the pair order; undirected graphs canonicalise with the
smaller identifier first, so `(a,b)` and `(b,a)` denote the same edge. -/
def canonical_edge_id (s : graph_spec) (a b : Nat) : (Nat × Nat) :=
  match s with
  | .DIRECTED => (a, b)
  | .UNDIRECTED => if a ≤ b then (a, b) else (b, a)

/-- The state of `graaf::graph<VERTEX_T, EDGE_T, GRAPH_SPEC_V>`
(graph.h lines 210-225): the adjacency map `adjacency_list_`, the vertex table
`vertices_`, the edge table `edges_`, and the monotonic identifier counter
`vertex_id_supplier_`. The in-class initializers `{}` and `{0}` give the
freshly constructed state `empty_graph`. -/
structure graph (V E : Type) (s : graph_spec) where
  adjacency_list_ : List (Nat × List Nat)
  vertices_ : List (Nat × V)
  edges_ : List ((Nat × Nat) × E)
  vertex_id_supplier_ : Nat
deriving DecidableEq

/-- A freshly constructed graph: all three indexes empty and the identifier
counter at 0 (graph.h in-class initializers, lines 210-225). -/
def empty_graph (V E : Type) (s : graph_spec) : graph V E s :=
  { adjacency_list_ := [], vertices_ := [], edges_ := [],
    vertex_id_supplier_ := 0 }

/-- The error kinds of the container (spec §7): `NotFound` carries the missing
identifier(s). `AllocationFailure` cannot arise in the embedding. -/
inductive graph_error where
  | NotFound (ids : List Nat)
deriving DecidableEq

/-- `vertex_count()`: the size of the vertex table (graph.h line 71). -/
def vertex_count {V E : Type} {s : graph_spec} (g : graph V E s) : Nat :=
  g.vertices_.length

/-- `edge_count()`: the size of the edge table (graph.h line 78). -/
def edge_count {V E : Type} {s : graph_spec} (g : graph V E s) : Nat :=
  g.edges_.length

/-- Modelled from the spec: `has_vertex(id)` (§4.2), body in the absent
`graph.tpp` — true iff `id` is present in the vertex table. -/
def has_vertex {V E : Type} {s : graph_spec} (vertex_id : Nat)
    (g : graph V E s) : Bool :=
  (lookup vertex_id g.vertices_).isSome

/-- Modelled from the spec: `has_edge(a, b)` (§4.2), body in the absent
`graph.tpp` — true iff the (canonical, per directedness) edge key is present
in the edge table. Total and never failing. -/
def has_edge {V E : Type} {s : graph_spec} (a b : Nat)
    (g : graph V E s) : Bool :=
  (lookup (canonical_edge_id s a b) g.edges_).isSome

/-- Modelled from the spec: `get_vertex(id)` (§4.2), body in the absent
`graph.tpp` — the stored vertex payload, or `NotFound` carrying the missing
identifier when `id` is not in the vertex table. -/
def get_vertex {V E : Type} {s : graph_spec} (vertex_id : Nat)
    (g : graph V E s) : Except graph_error V :=
  match lookup vertex_id g.vertices_ with
  | some v => .ok v
  | none => .error (.NotFound [vertex_id])

/-- Modelled from the spec: `get_edge(a, b)` (§4.2), body in the absent
`graph.tpp` — the stored edge payload handle, or `NotFound` carrying both
identifiers when no such edge exists (the directedness rule applies through
the canonical key). -/
def get_edge {V E : Type} {s : graph_spec} (a b : Nat)
    (g : graph V E s) : Except graph_error E :=
  match lookup (canonical_edge_id s a b) g.edges_ with
  | some e => .ok e
  | none => .error (.NotFound [a, b])

/-- The neighbor list of a vertex in the adjacency map (empty when the vertex
has no adjacency entry). -/
def nbrs {V E : Type} {s : graph_spec} (g : graph V E s)
    (vertex_id : Nat) : List Nat :=
  (lookup vertex_id g.adjacency_list_).getD []

/-- Modelled from the spec: `get_neighbors(id)` (§4.2), body in the absent
`graph.tpp` — a snapshot of the neighbor set, or `NotFound` when `id` is
absent. -/
def get_neighbors {V E : Type} {s : graph_spec} (vertex_id : Nat)
    (g : graph V E s) : Except graph_error (List Nat) :=
  if has_vertex vertex_id g then .ok (nbrs g vertex_id)
  else .error (.NotFound [vertex_id])

/-- Ensure an adjacency entry (possibly empty) exists for a vertex, as
`add_vertex` requires (spec §4.2). -/
def adj_ensure (vertex_id : Nat)
    (l : List (Nat × List Nat)) :
    List (Nat × List Nat) :=
  if (lookup vertex_id l).isSome then l else l ++ [(vertex_id, [])]

/-- Modelled from the spec: `add_vertex(payload)` (§4.2), body in the absent
`graph.tpp` — allocates the next identifier from the monotonic counter,
inserts the payload, ensures an adjacency entry exists, increments the
counter, and returns the new identifier with the new state. -/
def add_vertex {V E : Type} {s : graph_spec} (v : V) (g : graph V E s) :
    Nat × graph V E s :=
  let id := g.vertex_id_supplier_
  (id,
    { adjacency_list_ := adj_ensure id g.adjacency_list_,
      vertices_ := insert_or_assign id v g.vertices_,
      edges_ := g.edges_,
      vertex_id_supplier_ := id + 1 })

/-- Insert `b` into the adjacency entry of `a` (creating the entry when
missing), with set semantics. -/
def adj_insert (a b : Nat) :
    List (Nat × List Nat) →
    List (Nat × List Nat)
  | [] => [(a, [b])]
  | p :: rest =>
    if p.1 = a then (a, set_insert b p.2) :: rest else p :: adj_insert a b rest

/-- Remove `b` from the adjacency entry of `a` (no-op on entries of other
keys). -/
def adj_remove (a b : Nat) :
    List (Nat × List Nat) →
    List (Nat × List Nat)
  | [] => []
  | p :: rest =>
    if p.1 = a then (a, set_remove b p.2) :: adj_remove a b rest
    else p :: adj_remove a b rest

/-- Drop the adjacency entry of `id` and remove `id` from every remaining
neighbor set, as `remove_vertex` requires (spec §4.2 steps 2-3). -/
def adj_purge (id : Nat) :
    List (Nat × List Nat) →
    List (Nat × List Nat)
  | [] => []
  | p :: rest =>
    if p.1 = id then adj_purge id rest
    else (p.1, set_remove id p.2) :: adj_purge id rest

/-- Drop every edge-table entry whose key mentions `id` in either position, as
`remove_vertex` requires (spec §4.2 step 1). -/
def erase_incident {E : Type} (id : Nat) :
    List ((Nat × Nat) × E) → List ((Nat × Nat) × E)
  | [] => []
  | p :: rest =>
    if p.1.1 = id ∨ p.1.2 = id then erase_incident id rest
    else p :: erase_incident id rest

/-- Modelled from the spec: `remove_vertex(id)` (§4.2), body in the absent
`graph.tpp` — silent no-op when `id` is absent; otherwise removes every edge
incident to `id` from the edge table, removes `id` from every adjacency set
and drops its adjacency entry, and removes `id` from the vertex table. -/
def remove_vertex {V E : Type} {s : graph_spec} (vertex_id : Nat)
    (g : graph V E s) : graph V E s :=
  if has_vertex vertex_id g then
    { adjacency_list_ := adj_purge vertex_id g.adjacency_list_,
      vertices_ := erase_key vertex_id g.vertices_,
      edges_ := erase_incident vertex_id g.edges_,
      vertex_id_supplier_ := g.vertex_id_supplier_ }
  else g

/-- Modelled from the spec: `add_edge(a, b, payload)` (§4.2), body in the
absent `graph.tpp` — fails with `NotFound` (carrying the missing endpoints,
state untouched) when either endpoint is absent; otherwise stores the payload
under the canonical edge key, replacing any existing payload for that pair,
and updates the adjacency map (one direction for directed graphs, both for
undirected). -/
def add_edge {V E : Type} {s : graph_spec} (a b : Nat) (e : E)
    (g : graph V E s) : Except graph_error (graph V E s) :=
  if has_vertex a g && has_vertex b g then
    .ok
      { adjacency_list_ :=
          match s with
          | .DIRECTED => adj_insert a b g.adjacency_list_
          | .UNDIRECTED => adj_insert b a (adj_insert a b g.adjacency_list_),
        vertices_ := g.vertices_,
        edges_ := insert_or_assign (canonical_edge_id s a b) e g.edges_,
        vertex_id_supplier_ := g.vertex_id_supplier_ }
  else
    .error (.NotFound ((if has_vertex a g then [] else [a]) ++
      (if has_vertex b g then [] else [b])))

/-- Modelled from the spec: `remove_edge(a, b)` (§4.2), body in the absent
`graph.tpp` — silent no-op when no such edge exists; otherwise removes the
canonical edge key from the edge table and updates the adjacency map (both
directions for undirected graphs). -/
def remove_edge {V E : Type} {s : graph_spec} (a b : Nat)
    (g : graph V E s) : graph V E s :=
  if has_edge a b g then
    { adjacency_list_ :=
        match s with
        | .DIRECTED => adj_remove a b g.adjacency_list_
        | .UNDIRECTED => adj_remove b a (adj_remove a b g.adjacency_list_),
      vertices_ := g.vertices_,
      edges_ := erase_key (canonical_edge_id s a b) g.edges_,
      vertex_id_supplier_ := g.vertex_id_supplier_ }
  else g

/-- The wrapper around a primitive numeric edge payload
(`primitive_numeric_adapter` of graph.h lines 38-41): it satisfies the
weighted-edge capability by returning the stored number. -/
structure primitive_numeric_adapter (W : Type) where
  value : W
deriving DecidableEq

/-- The weighted-edge accessor of the adapter (spec §4.1): returns the wrapped
number. -/
def primitive_numeric_adapter.get_weight {W : Type}
    (a : primitive_numeric_adapter W) : W :=
  a.value

/-- Modelled from the spec: `add_edge` under a primitive-numeric edge
parameterisation (§4.1) wraps the raw number in the adapter before storing
it. -/
def add_edge_numeric {V W : Type} {s : graph_spec} (a b : Nat)
    (w : W) (g : graph V (primitive_numeric_adapter W) s) :
    Except graph_error (graph V (primitive_numeric_adapter W) s) :=
  add_edge a b { value := w } g

/-- One public mutating operation, for reasoning over operation sequences. -/
inductive Op (V E : Type) where
  | addVertex (v : V)
  | removeVertex (id : Nat)
  | addEdge (a b : Nat) (e : E)
  | removeEdge (a b : Nat)

/-- Apply one public mutating operation to the container; a failing `add_edge`
leaves the state unchanged (spec §7, all-or-nothing mutation). -/
def step {V E : Type} {s : graph_spec} (g : graph V E s) : Op V E → graph V E s
  | .addVertex v => (add_vertex v g).2
  | .removeVertex id => remove_vertex id g
  | .addEdge a b e =>
    match add_edge a b e g with
    | .ok g2 => g2
    | .error _ => g
  | .removeEdge a b => remove_edge a b g

/-- Apply a sequence of public mutating operations in order. -/
def run {V E : Type} {s : graph_spec} (g : graph V E s) :
    List (Op V E) → graph V E s
  | [] => g
  | op :: rest => run (step g op) rest

/-- The identifiers returned by the (always successful) `add_vertex` calls of
an operation sequence, in call order. -/
def addedIds {V E : Type} {s : graph_spec} (g : graph V E s) :
    List (Op V E) → List Nat
  | [] => []
  | op :: rest =>
    (match op with
     | .addVertex _ => [g.vertex_id_supplier_]
     | _ => []) ++ addedIds (step g op) rest

/-- The number of `add_vertex` calls in an operation sequence. -/
def countAddVertex {V E : Type} : List (Op V E) → Nat
  | [] => 0
  | .addVertex _ :: rest => countAddVertex rest + 1
  | _ :: rest => countAddVertex rest

/-- Invariant I1 (spec §3): every vertex identifier appearing in the adjacency
map, as a key or as a member of a neighbor set, is present in the vertex
table. -/
def adjacency_wf {V E : Type} {s : graph_spec} (g : graph V E s) : Prop :=
  ∀ p ∈ g.adjacency_list_,
    has_vertex p.1 g = true ∧ ∀ x ∈ p.2, has_vertex x g = true

/-- Membership of `b` in the adjacency set of `a`. -/
def adj_mem {V E : Type} {s : graph_spec} (g : graph V E s)
    (a b : Nat) : Prop :=
  b ∈ nbrs g a

/-- How an edge `(a, b)` must be reflected in the adjacency map (spec I2):
directed — `b ∈ adj[a]`; undirected — `b ∈ adj[a]` and `a ∈ adj[b]`. -/
def edge_reflected {V E : Type} {s : graph_spec} (g : graph V E s)
    (a b : Nat) : Prop :=
  match s with
  | .DIRECTED => adj_mem g a b
  | .UNDIRECTED => adj_mem g a b ∧ adj_mem g b a

/-- Invariant I2 (spec §3): an edge key `(a, b)` is present in the edge table
iff it is reflected in the adjacency map. -/
def edge_table_wf {V E : Type} {s : graph_spec} (g : graph V E s) : Prop :=
  ∀ a b : Nat,
    (lookup (canonical_edge_id s a b) g.edges_).isSome = true ↔
      edge_reflected g a b

/-- Invariant I3 (spec §3): every key stored in the edge table is in canonical
form for the graph's directedness. -/
def edge_keys_canonical {V E : Type} {s : graph_spec} (g : graph V E s) :
    Prop :=
  ∀ p ∈ g.edges_, canonical_edge_id s p.1.1 p.1.2 = p.1

/-- Mutual consistency of the three internal indexes (spec invariants
I1-I3). -/
def Inv {V E : Type} {s : graph_spec} (g : graph V E s) : Prop :=
  adjacency_wf g ∧ edge_table_wf g ∧ edge_keys_canonical g

/-- Well-formedness of a raw adjacency list relative to a vertex-presence
predicate: every key and every neighbor-set member satisfies it. -/
def adj_list_wf (hv : Nat → Prop)
    (l : List (Nat × List Nat)) : Prop :=
  ∀ p ∈ l, hv p.1 ∧ ∀ x ∈ p.2, hv x

/-- Every identifier in the vertex table is below the monotonic counter:
identifiers already issued stay strictly below the next one. -/
def vertex_ids_bounded {V E : Type} {s : graph_spec} (g : graph V E s) :
    Prop :=
  ∀ p ∈ g.vertices_, p.1 < g.vertex_id_supplier_

/-- A sample directed graph built by public operations: vertices 0 and 1
(payloads 10 and 20) and the single edge 0 → 1 with payload 7. -/
def sample_directed : graph Nat Nat graph_spec.DIRECTED :=
  run (empty_graph Nat Nat graph_spec.DIRECTED)
    [.addVertex 10, .addVertex 20, .addEdge 0 1 7]

/-- A sample directed graph built by public operations: vertices 0 and 1 and
no edges. -/
def sample_two_vertices : graph Nat Nat graph_spec.DIRECTED :=
  run (empty_graph Nat Nat graph_spec.DIRECTED)
    [.addVertex 10, .addVertex 20]

/-- A sample undirected graph with primitive-numeric edge parameterisation:
vertices 0 and 1 and no edges. -/
def sample_two_vertices_numeric :
    graph Nat (primitive_numeric_adapter Nat) graph_spec.UNDIRECTED :=
  run (empty_graph Nat (primitive_numeric_adapter Nat)
    graph_spec.UNDIRECTED) [.addVertex 10, .addVertex 20]

theorem lookup_insert_or_assign_self {κ α : Type _} [DecidableEq κ]
    (k : κ) (v : α) (l : List (κ × α)) :
    lookup k (insert_or_assign k v l) = some v := by
  induction l with
  | nil => simp [insert_or_assign, lookup]
  | cons p rest ih =>
    by_cases h : p.1 = k
    · simp [insert_or_assign, h, lookup]
    · simp [insert_or_assign, h, lookup, ih]

theorem lookup_insert_or_assign_ne {κ α : Type _} [DecidableEq κ]
    {k2 k : κ} (v : α) (l : List (κ × α)) (h : k2 ≠ k) :
    lookup k2 (insert_or_assign k v l) = lookup k2 l := by
  have hk : ¬ k = k2 := fun hc => h hc.symm
  induction l with
  | nil => simp [insert_or_assign, lookup, hk]
  | cons p rest ih =>
    by_cases hp : p.1 = k
    · simp [insert_or_assign, hp, lookup, hk]
    · simp [insert_or_assign, hp, lookup, ih]

theorem length_insert_or_assign {κ α : Type _} [DecidableEq κ]
    {k : κ} (v : α) {l : List (κ × α)}
    (h : (lookup k l).isSome = true) :
    (insert_or_assign k v l).length = l.length := by
  induction l with
  | nil => simp [lookup] at h
  | cons p rest ih =>
    by_cases hp : p.1 = k
    · simp [insert_or_assign, hp]
    · simp only [lookup, hp, if_false] at h
      simp [insert_or_assign, hp, ih h]

theorem mem_insert_or_assign {κ α : Type _} [DecidableEq κ]
    {p : κ × α} {k : κ} {v : α} {l : List (κ × α)}
    (h : p ∈ insert_or_assign k v l) : p = (k, v) ∨ p ∈ l := by
  induction l with
  | nil => simpa [insert_or_assign] using h
  | cons q rest ih =>
    by_cases hq : q.1 = k
    · simp only [insert_or_assign, hq, if_true, List.mem_cons] at h
      rcases h with h | h
      · exact Or.inl h
      · exact Or.inr (List.mem_cons_of_mem _ h)
    · simp only [insert_or_assign, hq, if_false, List.mem_cons] at h
      rcases h with h | h
      · exact Or.inr (h ▸ List.mem_cons_self _ _)
      · rcases ih h with h2 | h2
        · exact Or.inl h2
        · exact Or.inr (List.mem_cons_of_mem _ h2)

theorem lookup_erase_key_self {κ α : Type _} [DecidableEq κ]
    (k : κ) (l : List (κ × α)) : lookup k (erase_key k l) = none := by
  induction l with
  | nil => simp [erase_key, lookup]
  | cons p rest ih =>
    by_cases hp : p.1 = k
    · simp [erase_key, hp, ih]
    · simp [erase_key, hp, lookup, ih]

theorem lookup_erase_key_ne {κ α : Type _} [DecidableEq κ]
    {k2 k : κ} (l : List (κ × α)) (h : k2 ≠ k) :
    lookup k2 (erase_key k l) = lookup k2 l := by
  induction l with
  | nil => simp [erase_key]
  | cons p rest ih =>
    by_cases hp : p.1 = k
    · have hk : ¬ k = k2 := fun hc => h hc.symm
      simp [erase_key, hp, lookup, hk, ih]
    · simp [erase_key, hp, lookup, ih]

theorem mem_erase_key {κ α : Type _} [DecidableEq κ]
    {p : κ × α} {k : κ} {l : List (κ × α)} :
    p ∈ erase_key k l ↔ p ∈ l ∧ p.1 ≠ k := by
  induction l with
  | nil => simp [erase_key]
  | cons q rest ih =>
    by_cases hq : q.1 = k
    · simp only [erase_key, hq, if_true, ih, List.mem_cons]
      constructor
      · exact fun ⟨h1, h2⟩ => ⟨Or.inr h1, h2⟩
      · rintro ⟨h1 | h1, h2⟩
        · exact absurd (h1 ▸ hq) h2
        · exact ⟨h1, h2⟩
    · simp only [erase_key, hq, if_false, List.mem_cons, ih]
      constructor
      · rintro (rfl | ⟨h1, h2⟩)
        · exact ⟨Or.inl rfl, hq⟩
        · exact ⟨Or.inr h1, h2⟩
      · rintro ⟨h1 | h1, h2⟩
        · exact Or.inl h1
        · exact Or.inr ⟨h1, h2⟩

theorem lookup_mem {κ α : Type _} [DecidableEq κ]
    {k : κ} {v : α} {l : List (κ × α)} (h : lookup k l = some v) :
    (k, v) ∈ l := by
  induction l with
  | nil => simp [lookup] at h
  | cons p rest ih =>
    by_cases hp : p.1 = k
    · simp only [lookup, hp, if_true, Option.some.injEq] at h
      subst h
      exact hp ▸ List.mem_cons_self _ _
    · simp only [lookup, hp, if_false] at h
      exact List.mem_cons_of_mem _ (ih h)

theorem lookup_append {κ α : Type _} [DecidableEq κ]
    (k : κ) (l1 l2 : List (κ × α)) :
    lookup k (l1 ++ l2) =
      match lookup k l1 with
      | some v => some v
      | none => lookup k l2 := by
  induction l1 with
  | nil => simp [lookup]
  | cons p rest ih =>
    by_cases hp : p.1 = k
    · simp [lookup, hp]
    · simp [lookup, hp, ih]

theorem mem_set_insert {x b : Nat} {l : List Nat} :
    x ∈ set_insert b l ↔ x = b ∨ x ∈ l := by
  by_cases h : b ∈ l
  · simp only [set_insert, h, if_true]
    constructor
    · exact fun hx => Or.inr hx
    · rintro (rfl | hx)
      · exact h
      · exact hx
  · simp only [set_insert, h, if_false, List.mem_append,
      List.mem_singleton]
    tauto

theorem mem_set_remove {x b : Nat} {l : List Nat} :
    x ∈ set_remove b l ↔ x ∈ l ∧ x ≠ b := by
  induction l with
  | nil => simp [set_remove]
  | cons y rest ih =>
    by_cases hy : y = b
    · simp only [set_remove, hy, if_true, ih, List.mem_cons]
      constructor
      · exact fun ⟨h1, h2⟩ => ⟨Or.inr h1, h2⟩
      · rintro ⟨rfl | h1, h2⟩
        · exact absurd rfl h2
        · exact ⟨h1, h2⟩
    · simp only [set_remove, hy, if_false, List.mem_cons, ih]
      constructor
      · rintro (rfl | ⟨h1, h2⟩)
        · exact ⟨Or.inl rfl, hy⟩
        · exact ⟨Or.inr h1, h2⟩
      · rintro ⟨rfl | h1, h2⟩
        · exact Or.inl rfl
        · exact Or.inr ⟨h1, h2⟩

theorem lookup_adj_insert_self (a b : Nat)
    (l : List (Nat × List Nat)) :
    lookup a (adj_insert a b l) =
      some (set_insert b ((lookup a l).getD [])) := by
  induction l with
  | nil => simp [adj_insert, lookup, set_insert]
  | cons p rest ih =>
    by_cases hp : p.1 = a
    · simp [adj_insert, hp, lookup]
    · simp [adj_insert, hp, lookup, ih]

theorem lookup_adj_insert_ne {x a : Nat} (b : Nat)
    (l : List (Nat × List Nat)) (h : x ≠ a) :
    lookup x (adj_insert a b l) = lookup x l := by
  have ha : ¬ a = x := fun hc => h hc.symm
  induction l with
  | nil => simp [adj_insert, lookup, ha]
  | cons p rest ih =>
    by_cases hp : p.1 = a
    · simp [adj_insert, hp, lookup, ha]
    · simp [adj_insert, hp, lookup, ih]

theorem mem_adj_insert {p : Nat × List Nat}
    {a b : Nat} {l : List (Nat × List Nat)}
    (h : p ∈ adj_insert a b l) :
    p ∈ l ∨ (p.1 = a ∧ ∀ x ∈ p.2, x = b ∨ ∃ q ∈ l, q.1 = a ∧ x ∈ q.2) := by
  induction l with
  | nil =>
    simp only [adj_insert, List.mem_singleton] at h
    subst h
    refine Or.inr ⟨rfl, fun x hx => ?_⟩
    simp only [List.mem_singleton] at hx
    exact Or.inl hx
  | cons q rest ih =>
    by_cases hq : q.1 = a
    · simp only [adj_insert, hq, if_true, List.mem_cons] at h
      rcases h with rfl | h
      · refine Or.inr ⟨rfl, fun x hx => ?_⟩
        rcases mem_set_insert.1 hx with rfl | hx
        · exact Or.inl rfl
        · exact Or.inr ⟨q, List.mem_cons_self _ _, hq, hx⟩
      · exact Or.inl (List.mem_cons_of_mem _ h)
    · simp only [adj_insert, hq, if_false, List.mem_cons] at h
      rcases h with rfl | h
      · exact Or.inl (List.mem_cons_self _ _)
      · rcases ih h with h2 | ⟨h2, h3⟩
        · exact Or.inl (List.mem_cons_of_mem _ h2)
        · refine Or.inr ⟨h2, fun x hx => ?_⟩
          rcases h3 x hx with h4 | ⟨r, hr, hr2, hr3⟩
          · exact Or.inl h4
          · exact Or.inr ⟨r, List.mem_cons_of_mem _ hr, hr2, hr3⟩

theorem lookup_adj_remove_self (a b : Nat)
    (l : List (Nat × List Nat)) :
    lookup a (adj_remove a b l) = (lookup a l).map (set_remove b) := by
  induction l with
  | nil => simp [adj_remove, lookup]
  | cons p rest ih =>
    by_cases hp : p.1 = a
    · simp [adj_remove, hp, lookup]
    · simp [adj_remove, hp, lookup, ih]

theorem lookup_adj_remove_ne {x a : Nat} (b : Nat)
    (l : List (Nat × List Nat)) (h : x ≠ a) :
    lookup x (adj_remove a b l) = lookup x l := by
  have ha : ¬ a = x := fun hc => h hc.symm
  induction l with
  | nil => simp [adj_remove]
  | cons p rest ih =>
    by_cases hp : p.1 = a
    · simp [adj_remove, hp, lookup, ha, ih]
    · simp [adj_remove, hp, lookup, ih]

theorem mem_adj_remove {p : Nat × List Nat}
    {a b : Nat} {l : List (Nat × List Nat)}
    (h : p ∈ adj_remove a b l) :
    ∃ q ∈ l, p.1 = q.1 ∧ ∀ x ∈ p.2, x ∈ q.2 := by
  induction l with
  | nil => simp [adj_remove] at h
  | cons q rest ih =>
    by_cases hq : q.1 = a
    · simp only [adj_remove, hq, if_true, List.mem_cons] at h
      rcases h with rfl | h
      · exact ⟨q, List.mem_cons_self _ _, hq.symm,
          fun x hx => (mem_set_remove.1 hx).1⟩
      · rcases ih h with ⟨r, hr, hr2, hr3⟩
        exact ⟨r, List.mem_cons_of_mem _ hr, hr2, hr3⟩
    · simp only [adj_remove, hq, if_false, List.mem_cons] at h
      rcases h with rfl | h
      · exact ⟨p, List.mem_cons_self _ _, rfl, fun x hx => hx⟩
      · rcases ih h with ⟨r, hr, hr2, hr3⟩
        exact ⟨r, List.mem_cons_of_mem _ hr, hr2, hr3⟩

theorem lookup_adj_purge_self (id : Nat)
    (l : List (Nat × List Nat)) :
    lookup id (adj_purge id l) = none := by
  induction l with
  | nil => simp [adj_purge, lookup]
  | cons p rest ih =>
    by_cases hp : p.1 = id
    · simp [adj_purge, hp, ih]
    · simp [adj_purge, hp, lookup, ih]

theorem lookup_adj_purge_ne {x id : Nat}
    (l : List (Nat × List Nat)) (h : x ≠ id) :
    lookup x (adj_purge id l) = (lookup x l).map (set_remove id) := by
  induction l with
  | nil => simp [adj_purge, lookup]
  | cons p rest ih =>
    by_cases hp : p.1 = id
    · have hix : ¬ id = x := fun hc => h hc.symm
      simp [adj_purge, hp, lookup, hix, ih]
    · by_cases hpx : p.1 = x
      · simp [adj_purge, hp, lookup, hpx, h]
      · simp [adj_purge, hp, lookup, hpx, ih]

theorem mem_adj_purge {p : Nat × List Nat}
    {id : Nat} {l : List (Nat × List Nat)}
    (h : p ∈ adj_purge id l) :
    p.1 ≠ id ∧ ∃ q ∈ l, p.1 = q.1 ∧ ∀ x ∈ p.2, x ∈ q.2 ∧ x ≠ id := by
  induction l with
  | nil => simp [adj_purge] at h
  | cons q rest ih =>
    by_cases hq : q.1 = id
    · simp only [adj_purge, hq, if_true] at h
      rcases ih h with ⟨h1, r, hr, hr2, hr3⟩
      exact ⟨h1, r, List.mem_cons_of_mem _ hr, hr2, hr3⟩
    · simp only [adj_purge, hq, if_false, List.mem_cons] at h
      rcases h with rfl | h
      · exact ⟨hq, q, List.mem_cons_self _ _, rfl,
          fun x hx => mem_set_remove.1 hx⟩
      · rcases ih h with ⟨h1, r, hr, hr2, hr3⟩
        exact ⟨h1, r, List.mem_cons_of_mem _ hr, hr2, hr3⟩

theorem lookup_erase_incident {E : Type} (k : (Nat × Nat))
    (id : Nat) (l : List ((Nat × Nat) × E)) :
    lookup k (erase_incident id l) =
      if k.1 = id ∨ k.2 = id then none else lookup k l := by
  induction l with
  | nil => simp [erase_incident, lookup]
  | cons p rest ih =>
    by_cases hp : p.1.1 = id ∨ p.1.2 = id
    · by_cases hk : k.1 = id ∨ k.2 = id
      · simp [erase_incident, hp, hk, ih]
      · have hne : ¬ p.1 = k := by
          intro hc
          exact hk (hc ▸ hp)
        simp [erase_incident, hp, hk, lookup, hne, ih]
    · by_cases hpk : p.1 = k
      · have hk : ¬ (k.1 = id ∨ k.2 = id) := hpk ▸ hp
        simp [erase_incident, hp, lookup, hpk, hk]
      · simp [erase_incident, hp, lookup, hpk, ih]

theorem mem_erase_incident {E : Type} {p : (Nat × Nat) × E}
    {id : Nat} {l : List ((Nat × Nat) × E)} :
    p ∈ erase_incident id l ↔ p ∈ l ∧ p.1.1 ≠ id ∧ p.1.2 ≠ id := by
  induction l with
  | nil => simp [erase_incident]
  | cons q rest ih =>
    by_cases hq : q.1.1 = id ∨ q.1.2 = id
    · simp only [erase_incident, hq, if_true, ih, List.mem_cons]
      constructor
      · exact fun ⟨h1, h2⟩ => ⟨Or.inr h1, h2⟩
      · rintro ⟨rfl | h1, h2, h3⟩
        · rcases hq with hq | hq
          · exact absurd hq h2
          · exact absurd hq h3
        · exact ⟨h1, h2, h3⟩
    · push_neg at hq
      simp only [erase_incident, hq.1, hq.2, or_self, if_false,
        List.mem_cons, ih]
      constructor
      · rintro (rfl | ⟨h1, h2⟩)
        · exact ⟨Or.inl rfl, hq⟩
        · exact ⟨Or.inr h1, h2⟩
      · rintro ⟨rfl | h1, h2⟩
        · exact Or.inl rfl
        · exact Or.inr ⟨h1, h2⟩

theorem lookup_adj_ensure (x id : Nat)
    (l : List (Nat × List Nat)) :
    (lookup x (adj_ensure id l)).getD [] = (lookup x l).getD [] := by
  unfold adj_ensure
  by_cases h : (lookup id l).isSome = true
  · rw [if_pos h]
  · rw [if_neg h, lookup_append]
    rcases ho : lookup x l with _ | v
    · by_cases hx : id = x <;> simp [lookup, hx]
    · rfl

theorem mem_adj_ensure {p : Nat × List Nat}
    {id : Nat} {l : List (Nat × List Nat)}
    (h : p ∈ adj_ensure id l) : p ∈ l ∨ p = (id, []) := by
  unfold adj_ensure at h
  by_cases hs : (lookup id l).isSome = true
  · rw [if_pos hs] at h
    exact Or.inl h
  · rw [if_neg hs] at h
    simpa using h

theorem canonical_swap_undirected (a b : Nat) :
    canonical_edge_id .UNDIRECTED a b = canonical_edge_id .UNDIRECTED b a := by
  simp only [canonical_edge_id]
  rcases Nat.le_total a b with h | h
  · rcases Nat.lt_or_ge a b with h2 | h2
    · simp [h, Nat.not_le.2 h2]
    · have : a = b := Nat.le_antisymm h h2
      subst this
      simp
  · rcases Nat.lt_or_ge b a with h2 | h2
    · simp [h, Nat.not_le.2 h2]
    · have : b = a := Nat.le_antisymm h h2
      subst this
      simp

theorem canonical_eq_undirected {x y a b : Nat} :
    canonical_edge_id .UNDIRECTED x y = canonical_edge_id .UNDIRECTED a b ↔
      (x = a ∧ y = b) ∨ (x = b ∧ y = a) := by
  simp only [canonical_edge_id]
  split <;> split <;> simp only [Prod.mk.injEq] <;> omega

theorem canonical_fst_snd {s : graph_spec} {x y id : Nat} :
    ((canonical_edge_id s x y).1 = id ∨ (canonical_edge_id s x y).2 = id) ↔
      (x = id ∨ y = id) := by
  cases s with
  | DIRECTED => simp [canonical_edge_id]
  | UNDIRECTED =>
    simp only [canonical_edge_id]
    by_cases h : x ≤ y
    · simp [h]
    · simp only [h, if_false]
      tauto

theorem mem_getD_adj_insert {l : List (Nat × List Nat)} {x y a b : Nat} :
    y ∈ (lookup x (adj_insert a b l)).getD [] ↔
      (x = a ∧ y = b) ∨ y ∈ (lookup x l).getD [] := by
  by_cases hx : x = a
  · subst hx
    rw [lookup_adj_insert_self]
    simp only [Option.getD_some, mem_set_insert, true_and]
  · rw [lookup_adj_insert_ne _ _ hx]
    simp [hx]

theorem mem_getD_adj_remove {l : List (Nat × List Nat)} {x y a b : Nat} :
    y ∈ (lookup x (adj_remove a b l)).getD [] ↔
      y ∈ (lookup x l).getD [] ∧ ¬(x = a ∧ y = b) := by
  by_cases hx : x = a
  · subst hx
    rw [lookup_adj_remove_self]
    cases ho : lookup x l with
    | none => simp
    | some ns => simp [mem_set_remove]
  · rw [lookup_adj_remove_ne _ _ hx]
    simp [hx]

theorem mem_getD_adj_purge {l : List (Nat × List Nat)} {x y id : Nat} :
    y ∈ (lookup x (adj_purge id l)).getD [] ↔
      x ≠ id ∧ y ≠ id ∧ y ∈ (lookup x l).getD [] := by
  by_cases hx : x = id
  · subst hx
    rw [lookup_adj_purge_self]
    simp
  · rw [lookup_adj_purge_ne _ hx]
    cases ho : lookup x l with
    | none => simp
    | some ns => simp [mem_set_remove, hx, and_comm]

theorem canonical_idem (s : graph_spec) (a b : Nat) :
    canonical_edge_id s (canonical_edge_id s a b).1
      (canonical_edge_id s a b).2 = canonical_edge_id s a b := by
  cases s with
  | DIRECTED => rfl
  | UNDIRECTED =>
    simp only [canonical_edge_id]
    by_cases h : a ≤ b
    · simp [h]
    · have h2 : b ≤ a := Nat.le_of_not_le h
      simp [h, h2]

theorem add_vertex_fst {V E : Type} {s : graph_spec} (v : V)
    (g : graph V E s) : (add_vertex v g).1 = g.vertex_id_supplier_ := rfl

theorem add_vertex_supplier {V E : Type} {s : graph_spec} (v : V)
    (g : graph V E s) :
    (add_vertex v g).2.vertex_id_supplier_ = g.vertex_id_supplier_ + 1 := rfl

theorem add_vertex_edges {V E : Type} {s : graph_spec} (v : V)
    (g : graph V E s) : (add_vertex v g).2.edges_ = g.edges_ := rfl

theorem add_vertex_vertices {V E : Type} {s : graph_spec} (v : V)
    (g : graph V E s) :
    (add_vertex v g).2.vertices_ =
      insert_or_assign g.vertex_id_supplier_ v g.vertices_ := rfl

theorem add_vertex_adjacency {V E : Type} {s : graph_spec} (v : V)
    (g : graph V E s) :
    (add_vertex v g).2.adjacency_list_ =
      adj_ensure g.vertex_id_supplier_ g.adjacency_list_ := rfl

theorem inv_empty {V E : Type} {s : graph_spec} : Inv (empty_graph V E s) := by
  refine ⟨?_, ?_, ?_⟩
  · intro p hp
    simp [empty_graph] at hp
  · intro a b
    cases s <;>
      simp [empty_graph, lookup, edge_reflected, adj_mem, nbrs]
  · intro p hp
    simp [empty_graph] at hp

theorem has_vertex_add_vertex {V E : Type} {s : graph_spec} {g : graph V E s}
    (v : V) {x : Nat} (h : has_vertex x g = true) :
    has_vertex x (add_vertex v g).2 = true := by
  show (lookup x (insert_or_assign g.vertex_id_supplier_ v
    g.vertices_)).isSome = true
  by_cases hx : x = g.vertex_id_supplier_
  · subst hx
    rw [lookup_insert_or_assign_self]
    rfl
  · rw [lookup_insert_or_assign_ne _ _ hx]
    exact h

theorem nbrs_add_vertex {V E : Type} {s : graph_spec} (g : graph V E s)
    (v : V) (x : Nat) : nbrs (add_vertex v g).2 x = nbrs g x := by
  show (lookup x (adj_ensure g.vertex_id_supplier_
    g.adjacency_list_)).getD [] = _
  exact lookup_adj_ensure x g.vertex_id_supplier_ g.adjacency_list_

theorem inv_add_vertex {V E : Type} {s : graph_spec} {g : graph V E s}
    (v : V) (h : Inv g) : Inv (add_vertex v g).2 := by
  obtain ⟨h1, h2, h3⟩ := h
  refine ⟨?_, ?_, ?_⟩
  · intro p hp
    rcases mem_adj_ensure hp with hmem | rfl
    · obtain ⟨hpa, hpb⟩ := h1 p hmem
      exact ⟨has_vertex_add_vertex v hpa,
        fun x hx => has_vertex_add_vertex v (hpb x hx)⟩
    · constructor
      · show (lookup g.vertex_id_supplier_ (insert_or_assign
          g.vertex_id_supplier_ v g.vertices_)).isSome = true
        rw [lookup_insert_or_assign_self]
        rfl
      · intro x hx
        simp at hx
  · intro a b
    have h2ab := h2 a b
    rw [show (add_vertex v g).2.edges_ = g.edges_ from rfl]
    cases s with
    | DIRECTED =>
      show _ ↔ adj_mem (add_vertex v g).2 a b
      rw [show adj_mem (add_vertex v g).2 a b ↔ adj_mem g a b from by
        unfold adj_mem
        rw [nbrs_add_vertex]]
      exact h2ab
    | UNDIRECTED =>
      show _ ↔ adj_mem (add_vertex v g).2 a b ∧ adj_mem (add_vertex v g).2 b a
      unfold adj_mem
      rw [nbrs_add_vertex, nbrs_add_vertex]
      exact h2ab
  · intro p hp
    exact h3 p hp

theorem inv_add_edge {V E : Type} {s : graph_spec} {g g2 : graph V E s}
    {a b : Nat} {e : E} (hok : add_edge a b e g = .ok g2) (h : Inv g) :
    Inv g2 := by
  obtain ⟨h1, h2, h3⟩ := h
  unfold add_edge at hok
  by_cases hg : (has_vertex a g && has_vertex b g) = true
  · rw [if_pos hg] at hok
    simp only [Bool.and_eq_true] at hg
    obtain ⟨ha, hb⟩ := hg
    injection hok with hok
    subst hok
    cases s with
    | DIRECTED =>
      refine ⟨?_, ?_, ?_⟩
      · intro p hp
        rcases mem_adj_insert hp with hmem | ⟨hpa, hx⟩
        · exact h1 p hmem
        · constructor
          · rw [show (p.1 : Nat) = a from hpa]
            exact ha
          · intro x hxm
            rcases hx x hxm with rfl | ⟨q, hq, hqa, hqx⟩
            · exact hb
            · exact (h1 q hq).2 x hqx
      · intro x y
        have hr : ∀ u w : Nat,
            w ∈ (lookup u (adj_insert a b g.adjacency_list_)).getD [] ↔
              ((u = a ∧ w = b) ∨ adj_mem g u w) :=
          fun u w => mem_getD_adj_insert
        show (lookup (x, y) (insert_or_assign (a, b) e g.edges_)).isSome =
          true ↔ _
        by_cases hk : ((x, y) : Nat × Nat) = (a, b)
        · rw [hk, lookup_insert_or_assign_self]
          have hxa : x = a ∧ y = b := by
            simpa [Prod.ext_iff] using hk
          constructor
          · intro _
            exact (hr x y).2 (Or.inl hxa)
          · intro _
            rfl
        · rw [lookup_insert_or_assign_ne _ _ hk]
          have h2xy := h2 x y
          have hne : ¬(x = a ∧ y = b) := by
            intro hc
            exact hk (by rw [hc.1, hc.2])
          constructor
          · intro hl
            exact (hr x y).2 (Or.inr (h2xy.1 hl))
          · intro hrr
            rcases (hr x y).1 hrr with hx | hx
            · exact absurd hx hne
            · exact h2xy.2 hx
      · intro p hp
        rcases mem_insert_or_assign hp with rfl | hmem
        · rfl
        · exact h3 p hmem
    | UNDIRECTED =>
      refine ⟨?_, ?_, ?_⟩
      · intro p hp
        rcases mem_adj_insert hp with hp1 | ⟨hpb, hx⟩
        · rcases mem_adj_insert hp1 with hp2 | ⟨hpa, hx⟩
          · exact h1 p hp2
          · constructor
            · rw [show (p.1 : Nat) = a from hpa]
              exact ha
            · intro x hxm
              rcases hx x hxm with rfl | ⟨q, hq, hqa, hqx⟩
              · exact hb
              · exact (h1 q hq).2 x hqx
        · constructor
          · rw [show (p.1 : Nat) = b from hpb]
            exact hb
          · intro x hxm
            rcases hx x hxm with rfl | ⟨q, hq, hqb, hqx⟩
            · exact ha
            · rcases mem_adj_insert hq with hq2 | ⟨hqa2, hx2⟩
              · exact (h1 q hq2).2 x hqx
              · rcases hx2 x hqx with rfl | ⟨r, hrm, hra, hrx⟩
                · exact hb
                · exact (h1 r hrm).2 x hrx
      · intro x y
        have hr : ∀ u w : Nat,
            w ∈ (lookup u (adj_insert b a (adj_insert a b
              g.adjacency_list_))).getD [] ↔
              ((u = b ∧ w = a) ∨ (u = a ∧ w = b) ∨ adj_mem g u w) := by
          intro u w
          rw [mem_getD_adj_insert]
          rw [mem_getD_adj_insert]
          exact Iff.rfl
        show (lookup (canonical_edge_id .UNDIRECTED x y)
          (insert_or_assign (canonical_edge_id .UNDIRECTED a b) e
            g.edges_)).isSome = true ↔ _
        by_cases hk : canonical_edge_id .UNDIRECTED x y =
            canonical_edge_id .UNDIRECTED a b
        · rw [hk, lookup_insert_or_assign_self]
          rcases canonical_eq_undirected.1 hk with ⟨rfl, rfl⟩ | ⟨rfl, rfl⟩
          · constructor
            · intro _
              exact ⟨(hr x y).2 (Or.inr (Or.inl ⟨rfl, rfl⟩)),
                (hr y x).2 (Or.inl ⟨rfl, rfl⟩)⟩
            · intro _
              rfl
          · constructor
            · intro _
              exact ⟨(hr x y).2 (Or.inl ⟨rfl, rfl⟩),
                (hr y x).2 (Or.inr (Or.inl ⟨rfl, rfl⟩))⟩
            · intro _
              rfl
        · rw [lookup_insert_or_assign_ne _ _ hk]
          have h2xy := h2 x y
          have hne : ¬((x = a ∧ y = b) ∨ (x = b ∧ y = a)) :=
            fun hc => hk (canonical_eq_undirected.2 hc)
          constructor
          · intro hl
            have hrf := h2xy.1 hl
            exact ⟨(hr x y).2 (Or.inr (Or.inr hrf.1)),
              (hr y x).2 (Or.inr (Or.inr hrf.2))⟩
          · rintro ⟨hm1, hm2⟩
            rcases (hr x y).1 hm1 with ⟨rfl, rfl⟩ | ⟨rfl, rfl⟩ | hm1g
            · exact absurd (Or.inr ⟨rfl, rfl⟩) hne
            · exact absurd (Or.inl ⟨rfl, rfl⟩) hne
            · rcases (hr y x).1 hm2 with ⟨rfl, rfl⟩ | ⟨rfl, rfl⟩ | hm2g
              · exact absurd (Or.inl ⟨rfl, rfl⟩) hne
              · exact absurd (Or.inr ⟨rfl, rfl⟩) hne
              · exact h2xy.2 ⟨hm1g, hm2g⟩
      · intro p hp
        rcases mem_insert_or_assign hp with rfl | hmem
        · exact canonical_idem _ a b
        · exact h3 p hmem
  · rw [if_neg hg] at hok
    cases hok

theorem edge_reflected_left {V E : Type} {s : graph_spec} {g : graph V E s}
    {x y : Nat} (h : edge_reflected g x y) : adj_mem g x y := by
  cases s with
  | DIRECTED => exact h
  | UNDIRECTED => exact h.1

theorem inv_remove_edge {V E : Type} {s : graph_spec} {g : graph V E s}
    (a b : Nat) (h : Inv g) : Inv (remove_edge a b g) := by
  obtain ⟨h1, h2, h3⟩ := h
  unfold remove_edge
  by_cases hg : has_edge a b g = true
  · rw [if_pos hg]
    cases s with
    | DIRECTED =>
      refine ⟨?_, ?_, ?_⟩
      · intro p hp
        rcases mem_adj_remove hp with ⟨q, hq, hpq, hsub⟩
        obtain ⟨hqa, hqb⟩ := h1 q hq
        constructor
        · rw [show (p.1 : Nat) = q.1 from hpq]
          exact hqa
        · intro x hx
          exact hqb x (hsub x hx)
      · intro x y
        have hr : ∀ u w : Nat,
            w ∈ (lookup u (adj_remove a b g.adjacency_list_)).getD [] ↔
              (w ∈ nbrs g u ∧ ¬(u = a ∧ w = b)) :=
          fun u w => mem_getD_adj_remove
        show (lookup (x, y) (erase_key ((a : Nat), b) g.edges_)).isSome =
          true ↔ _
        by_cases hk : ((x, y) : Nat × Nat) = (a, b)
        · obtain ⟨rfl, rfl⟩ : x = a ∧ y = b := by
            simpa [Prod.ext_iff] using hk
          rw [lookup_erase_key_self]
          constructor
          · intro hc
            exact absurd hc (by simp)
          · intro hm
            exact absurd ⟨rfl, rfl⟩ ((hr x y).1 hm).2
        · rw [lookup_erase_key_ne _ hk]
          have h2xy := h2 x y
          have hne : ¬(x = a ∧ y = b) := by
            intro hc
            exact hk (by rw [hc.1, hc.2])
          constructor
          · intro hl
            exact (hr x y).2 ⟨h2xy.1 hl, hne⟩
          · intro hm
            exact h2xy.2 ((hr x y).1 hm).1
      · intro p hp
        exact h3 p (mem_erase_key.1 hp).1
    | UNDIRECTED =>
      refine ⟨?_, ?_, ?_⟩
      · intro p hp
        rcases mem_adj_remove hp with ⟨q, hq, hpq, hsub⟩
        rcases mem_adj_remove hq with ⟨r, hrm, hqr, hsub2⟩
        obtain ⟨hra, hrb⟩ := h1 r hrm
        constructor
        · rw [show (p.1 : Nat) = r.1 from hpq.trans hqr]
          exact hra
        · intro x hx
          exact hrb x (hsub2 x (hsub x hx))
      · intro x y
        have hr : ∀ u w : Nat,
            w ∈ (lookup u (adj_remove b a (adj_remove a b
              g.adjacency_list_))).getD [] ↔
              (w ∈ nbrs g u ∧ ¬(u = a ∧ w = b) ∧ ¬(u = b ∧ w = a)) := by
          intro u w
          rw [mem_getD_adj_remove, mem_getD_adj_remove]
          tauto
        show (lookup (canonical_edge_id .UNDIRECTED x y)
          (erase_key (canonical_edge_id .UNDIRECTED a b)
            g.edges_)).isSome = true ↔ _
        by_cases hk : canonical_edge_id .UNDIRECTED x y =
            canonical_edge_id .UNDIRECTED a b
        · rw [hk, lookup_erase_key_self]
          constructor
          · intro hc
            exact absurd hc (by simp)
          · rintro ⟨hm1, hm2⟩
            rcases canonical_eq_undirected.1 hk with ⟨rfl, rfl⟩ | ⟨rfl, rfl⟩
            · exact absurd ⟨rfl, rfl⟩ ((hr x y).1 hm1).2.1
            · exact absurd ⟨rfl, rfl⟩ ((hr x y).1 hm1).2.2
        · rw [lookup_erase_key_ne _ hk]
          have h2xy := h2 x y
          have hne : ¬((x = a ∧ y = b) ∨ (x = b ∧ y = a)) :=
            fun hc => hk (canonical_eq_undirected.2 hc)
          constructor
          · intro hl
            have hrf := h2xy.1 hl
            refine ⟨(hr x y).2 ⟨hrf.1, ?_, ?_⟩, (hr y x).2 ⟨hrf.2, ?_, ?_⟩⟩
            · exact fun hc => hne (Or.inl hc)
            · exact fun hc => hne (Or.inr hc)
            · exact fun hc => hne (Or.inr ⟨hc.2, hc.1⟩)
            · exact fun hc => hne (Or.inl ⟨hc.2, hc.1⟩)
          · rintro ⟨hm1, hm2⟩
            exact h2xy.2 ⟨((hr x y).1 hm1).1, ((hr y x).1 hm2).1⟩
      · intro p hp
        exact h3 p (mem_erase_key.1 hp).1
  · rw [if_neg hg]
    exact ⟨h1, h2, h3⟩

theorem inv_remove_vertex {V E : Type} {s : graph_spec} {g : graph V E s}
    (id : Nat) (h : Inv g) : Inv (remove_vertex id g) := by
  obtain ⟨h1, h2, h3⟩ := h
  unfold remove_vertex
  by_cases hg : has_vertex id g = true
  · rw [if_pos hg]
    refine ⟨?_, ?_, ?_⟩
    · intro p hp
      obtain ⟨hpid, q, hq, hpq, hsub⟩ := mem_adj_purge hp
      obtain ⟨hqa, hqb⟩ := h1 q hq
      constructor
      · show (lookup p.1 (erase_key id g.vertices_)).isSome = true
        rw [lookup_erase_key_ne _ hpid, hpq]
        exact hqa
      · intro x hx
        obtain ⟨hxq, hxid⟩ := hsub x hx
        show (lookup x (erase_key id g.vertices_)).isSome = true
        rw [lookup_erase_key_ne _ hxid]
        exact hqb x hxq
    · have hr : ∀ u w : Nat,
          w ∈ (lookup u (adj_purge id g.adjacency_list_)).getD [] ↔
            (u ≠ id ∧ w ≠ id ∧ w ∈ nbrs g u) :=
        fun u w => mem_getD_adj_purge
      intro x y
      show (lookup (canonical_edge_id s x y)
        (erase_incident id g.edges_)).isSome = true ↔ _
      rw [lookup_erase_incident]
      by_cases hxy : x = id ∨ y = id
      · rw [if_pos (canonical_fst_snd.2 hxy)]
        constructor
        · intro hc
          exact absurd hc (by simp)
        · intro hm
          obtain ⟨hx1, hy1, _⟩ := (hr x y).1 (edge_reflected_left hm)
          rcases hxy with hc | hc
          · exact (hx1 hc).elim
          · exact (hy1 hc).elim
      · rw [if_neg (fun hc => hxy (canonical_fst_snd.1 hc))]
        push_neg at hxy
        obtain ⟨hx2, hy2⟩ := hxy
        have h2xy := h2 x y
        cases s with
        | DIRECTED =>
          constructor
          · intro hl
            exact (hr x y).2 ⟨hx2, hy2, h2xy.1 hl⟩
          · intro hm
            exact h2xy.2 ((hr x y).1 hm).2.2
        | UNDIRECTED =>
          constructor
          · intro hl
            obtain ⟨hm1, hm2⟩ := h2xy.1 hl
            exact ⟨(hr x y).2 ⟨hx2, hy2, hm1⟩, (hr y x).2 ⟨hy2, hx2, hm2⟩⟩
          · rintro ⟨hm1, hm2⟩
            exact h2xy.2 ⟨((hr x y).1 hm1).2.2, ((hr y x).1 hm2).2.2⟩
    · intro p hp
      exact h3 p (mem_erase_incident.1 hp).1
  · rw [if_neg hg]
    exact ⟨h1, h2, h3⟩

theorem inv_step {V E : Type} {s : graph_spec} {g : graph V E s}
    (op : Op V E) (h : Inv g) : Inv (step g op) := by
  cases op with
  | addVertex v => exact inv_add_vertex v h
  | removeVertex id => exact inv_remove_vertex id h
  | addEdge a b e =>
    cases hae : add_edge a b e g with
    | ok g2 =>
      have hst : step g (.addEdge a b e) = g2 := by
        show (match add_edge a b e g with
          | .ok g3 => g3
          | .error _ => g) = g2
        rw [hae]
      rw [hst]
      exact inv_add_edge hae h
    | error err =>
      have hst : step g (.addEdge a b e) = g := by
        show (match add_edge a b e g with
          | .ok g3 => g3
          | .error _ => g) = g
        rw [hae]
      rw [hst]
      exact h
  | removeEdge a b => exact inv_remove_edge a b h

theorem inv_run {V E : Type} {s : graph_spec} :
    ∀ (ops : List (Op V E)) (g : graph V E s), Inv g → Inv (run g ops)
  | [], _, h => h
  | op :: rest, g, h => inv_run rest (step g op) (inv_step op h)

theorem remove_edge_absent {V E : Type} {s : graph_spec} {g : graph V E s}
    {a b : Nat} (h : has_edge a b g = false) : remove_edge a b g = g := by
  unfold remove_edge
  rw [if_neg (by simp [h])]

theorem remove_vertex_absent {V E : Type} {s : graph_spec} {g : graph V E s}
    {id : Nat} (h : has_vertex id g = false) : remove_vertex id g = g := by
  unfold remove_vertex
  rw [if_neg (by simp [h])]

theorem has_edge_remove_edge_self {V E : Type} {s : graph_spec}
    (g : graph V E s) (a b : Nat) :
    has_edge a b (remove_edge a b g) = false := by
  by_cases hg : has_edge a b g = true
  · unfold remove_edge
    rw [if_pos hg]
    show (lookup (canonical_edge_id s a b)
      (erase_key (canonical_edge_id s a b) g.edges_)).isSome = false
    rw [lookup_erase_key_self]
    rfl
  · rw [remove_edge_absent (Bool.not_eq_true _ ▸ hg)]
    exact Bool.not_eq_true _ ▸ hg

theorem has_vertex_remove_vertex_self {V E : Type} {s : graph_spec}
    (g : graph V E s) (id : Nat) :
    has_vertex id (remove_vertex id g) = false := by
  by_cases hg : has_vertex id g = true
  · unfold remove_vertex
    rw [if_pos hg]
    show (lookup id (erase_key id g.vertices_)).isSome = false
    rw [lookup_erase_key_self]
    rfl
  · rw [remove_vertex_absent (Bool.not_eq_true _ ▸ hg)]
    exact Bool.not_eq_true _ ▸ hg

theorem add_edge_get_edge {V E : Type} {s : graph_spec} {g g2 : graph V E s}
    {a b : Nat} {e : E} (hok : add_edge a b e g = .ok g2) :
    get_edge a b g2 = .ok e := by
  unfold add_edge at hok
  by_cases hg : (has_vertex a g && has_vertex b g) = true
  · rw [if_pos hg] at hok
    injection hok with hok
    subst hok
    unfold get_edge
    rw [lookup_insert_or_assign_self]
  · rw [if_neg hg] at hok
    cases hok

theorem add_edge_ok_fields {V E : Type} {s : graph_spec} {g g2 : graph V E s}
    {a b : Nat} {e : E} (hok : add_edge a b e g = .ok g2) :
    g2.vertices_ = g.vertices_ ∧
      g2.vertex_id_supplier_ = g.vertex_id_supplier_ := by
  unfold add_edge at hok
  by_cases hg : (has_vertex a g && has_vertex b g) = true
  · rw [if_pos hg] at hok
    injection hok with hok
    subst hok
    exact ⟨rfl, rfl⟩
  · rw [if_neg hg] at hok
    cases hok

theorem step_add_edge_cases {V E : Type} {s : graph_spec} (g : graph V E s)
    (a b : Nat) (e : E) :
    step g (.addEdge a b e) = g ∨
      ∃ g2, add_edge a b e g = .ok g2 ∧ step g (.addEdge a b e) = g2 := by
  cases hae : add_edge a b e g with
  | ok g2 =>
    refine Or.inr ⟨g2, rfl, ?_⟩
    show (match add_edge a b e g with
      | .ok g3 => g3
      | .error _ => g) = g2
    rw [hae]
  | error err =>
    refine Or.inl ?_
    show (match add_edge a b e g with
      | .ok g3 => g3
      | .error _ => g) = g
    rw [hae]

theorem remove_vertex_supplier {V E : Type} {s : graph_spec}
    (g : graph V E s) (id : Nat) :
    (remove_vertex id g).vertex_id_supplier_ = g.vertex_id_supplier_ := by
  unfold remove_vertex
  split <;> rfl

theorem remove_edge_supplier {V E : Type} {s : graph_spec}
    (g : graph V E s) (a b : Nat) :
    (remove_edge a b g).vertex_id_supplier_ = g.vertex_id_supplier_ := by
  unfold remove_edge
  split <;> rfl

theorem remove_edge_vertices {V E : Type} {s : graph_spec}
    (g : graph V E s) (a b : Nat) :
    (remove_edge a b g).vertices_ = g.vertices_ := by
  unfold remove_edge
  split <;> rfl

theorem step_supplier {V E : Type} {s : graph_spec} (g : graph V E s)
    (op : Op V E) :
    (step g op).vertex_id_supplier_ =
      g.vertex_id_supplier_ + countAddVertex [op] := by
  cases op with
  | addVertex v => rfl
  | removeVertex id =>
    show (remove_vertex id g).vertex_id_supplier_ = _
    rw [remove_vertex_supplier]
    rfl
  | addEdge a b e =>
    rcases step_add_edge_cases g a b e with hst | ⟨g2, hok, hst⟩
    · rw [hst]
      rfl
    · rw [hst, (add_edge_ok_fields hok).2]
      rfl
  | removeEdge a b =>
    show (remove_edge a b g).vertex_id_supplier_ = _
    rw [remove_edge_supplier]
    rfl

theorem run_supplier {V E : Type} {s : graph_spec} (ops : List (Op V E)) :
    ∀ g : graph V E s,
      (run g ops).vertex_id_supplier_ =
        g.vertex_id_supplier_ + countAddVertex ops := by
  induction ops with
  | nil =>
    intro g
    rfl
  | cons op rest ih =>
    intro g
    show (run (step g op) rest).vertex_id_supplier_ = _
    rw [ih (step g op), step_supplier]
    cases op <;> simp [countAddVertex] <;> omega

theorem step_supplier_mono {V E : Type} {s : graph_spec} (g : graph V E s)
    (op : Op V E) :
    g.vertex_id_supplier_ ≤ (step g op).vertex_id_supplier_ := by
  rw [step_supplier]
  exact Nat.le_add_right _ _

theorem vertex_ids_bounded_step {V E : Type} {s : graph_spec}
    {g : graph V E s} (op : Op V E) (h : vertex_ids_bounded g) :
    vertex_ids_bounded (step g op) := by
  cases op with
  | addVertex v =>
    intro p hp
    rw [show step g (.addVertex v) = (add_vertex v g).2 from rfl] at hp ⊢
    rw [add_vertex_supplier]
    rw [add_vertex_vertices] at hp
    rcases mem_insert_or_assign hp with rfl | hmem
    · exact Nat.lt_succ_self _
    · exact Nat.lt_succ_of_lt (h p hmem)
  | removeVertex id =>
    intro p hp
    rw [show (step g (.removeVertex id)) = remove_vertex id g from rfl] at hp ⊢
    rw [remove_vertex_supplier]
    unfold remove_vertex at hp
    by_cases hg : has_vertex id g = true
    · rw [if_pos hg] at hp
      exact h p (mem_erase_key.1 hp).1
    · rw [if_neg hg] at hp
      exact h p hp
  | addEdge a b e =>
    rcases step_add_edge_cases g a b e with hst | ⟨g2, hok, hst⟩
    · rw [hst]
      exact h
    · rw [hst]
      intro p hp
      rw [(add_edge_ok_fields hok).1] at hp
      rw [(add_edge_ok_fields hok).2]
      exact h p hp
  | removeEdge a b =>
    intro p hp
    rw [show (step g (.removeEdge a b)) = remove_edge a b g from rfl] at hp ⊢
    rw [remove_edge_vertices] at hp
    rw [remove_edge_supplier]
    exact h p hp

theorem vertex_ids_bounded_run {V E : Type} {s : graph_spec} :
    ∀ (ops : List (Op V E)) (g : graph V E s),
      vertex_ids_bounded g → vertex_ids_bounded (run g ops)
  | [], _, h => h
  | op :: rest, g, h =>
    vertex_ids_bounded_run rest (step g op) (vertex_ids_bounded_step op h)

theorem addedIds_lb {V E : Type} {s : graph_spec} :
    ∀ (ops : List (Op V E)) (g : graph V E s),
      ∀ x ∈ addedIds g ops, g.vertex_id_supplier_ ≤ x := by
  intro ops
  induction ops with
  | nil =>
    intro g x hx
    simp [addedIds] at hx
  | cons op rest ih =>
    intro g x hx
    unfold addedIds at hx
    rw [List.mem_append] at hx
    rcases hx with hx | hx
    · cases op <;> simp at hx
      rw [hx]
    · exact Nat.le_trans (step_supplier_mono g op) (ih (step g op) x hx)

theorem addedIds_pairwise_lt {V E : Type} {s : graph_spec} :
    ∀ (ops : List (Op V E)) (g : graph V E s),
      (addedIds g ops).Pairwise (· < ·) := by
  intro ops
  induction ops with
  | nil =>
    intro g
    exact List.Pairwise.nil
  | cons op rest ih =>
    intro g
    unfold addedIds
    cases op with
    | addVertex v =>
      refine List.Pairwise.cons ?_ (ih _)
      intro x hx
      have hle := addedIds_lb rest _ x hx
      rw [step_supplier] at hle
      simp only [countAddVertex] at hle
      omega
    | removeVertex id =>
      simpa using ih (step g (.removeVertex id))
    | addEdge a b e =>
      simpa using ih (step g (.addEdge a b e))
    | removeEdge a b =>
      simpa using ih (step g (.removeEdge a b))

theorem has_edge_vertices_present {V E : Type} {s : graph_spec}
    {g : graph V E s} (hinv : Inv g) {a b : Nat}
    (h : has_edge a b g = true) :
    has_vertex a g = true ∧ has_vertex b g = true := by
  obtain ⟨h1, h2, _⟩ := hinv
  have hm1 : adj_mem g a b := edge_reflected_left ((h2 a b).1 h)
  unfold adj_mem nbrs at hm1
  cases ho : lookup a g.adjacency_list_ with
  | none =>
    rw [ho] at hm1
    simp at hm1
  | some ns =>
    rw [ho] at hm1
    simp only [Option.getD_some] at hm1
    obtain ⟨hva, hvns⟩ := h1 (a, ns) (lookup_mem ho)
    exact ⟨hva, hvns b hm1⟩

/-- C1: after every sequence of public operations on a freshly constructed
container, the three internal indexes are mutually consistent: every vertex
identifier appearing in the adjacency map (as a key or as a member of a
neighbor set) is present in the vertex table, and an edge key `(a,b)` is
present in the edge table iff it is reflected in the adjacency map (directed:
`b ∈ adj[a]`; undirected: `b ∈ adj[a]` and `a ∈ adj[b]`), edge keys being
stored in canonical form. -/
theorem C1_indexes_mutually_consistent {V E : Type} {s : graph_spec}
    (ops : List (Op V E)) : Inv (run (empty_graph V E s) ops) :=
  inv_run ops (empty_graph V E s) inv_empty

/-- C2: for every graph state and vertex `id` present in it, after
`remove_vertex id` no edge key mentions `id`, `id` appears in no adjacency
entry (neither as key nor as neighbor-set member), `id` is gone from the
vertex table, and every edge not incident to `id` is unaffected. -/
theorem C2_remove_vertex_purges {V E : Type} {s : graph_spec}
    (g : graph V E s) (id : Nat) (h : has_vertex id g = true) :
    (∀ p ∈ (remove_vertex id g).edges_, p.1.1 ≠ id ∧ p.1.2 ≠ id) ∧
    (∀ p ∈ (remove_vertex id g).adjacency_list_, p.1 ≠ id ∧ id ∉ p.2) ∧
    has_vertex id (remove_vertex id g) = false ∧
    (∀ k : Nat × Nat, k.1 ≠ id → k.2 ≠ id →
      lookup k (remove_vertex id g).edges_ = lookup k g.edges_) := by
  unfold remove_vertex
  rw [if_pos h]
  refine ⟨?_, ?_, ?_, ?_⟩
  · intro p hp
    exact (mem_erase_incident.1 hp).2
  · intro p hp
    obtain ⟨hpid, q, hq, hpq, hsub⟩ := mem_adj_purge hp
    exact ⟨hpid, fun hc => (hsub id hc).2 rfl⟩
  · show (lookup id (erase_key id g.vertices_)).isSome = false
    rw [lookup_erase_key_self]
    rfl
  · intro k h1 h2
    show lookup k (erase_incident id g.edges_) = _
    rw [lookup_erase_incident]
    simp [h1, h2]

/-- Witness for C2 at a concrete input: `sample_directed` contains vertex 0;
removing it purges all three indexes as claimed. -/
theorem C2_remove_vertex_purges_witness :
    has_vertex 0 sample_directed = true ∧
    ((∀ p ∈ (remove_vertex 0 sample_directed).edges_,
        p.1.1 ≠ 0 ∧ p.1.2 ≠ 0) ∧
      (∀ p ∈ (remove_vertex 0 sample_directed).adjacency_list_,
        p.1 ≠ 0 ∧ 0 ∉ p.2) ∧
      has_vertex 0 (remove_vertex 0 sample_directed) = false ∧
      (∀ k : Nat × Nat, k.1 ≠ 0 → k.2 ≠ 0 →
        lookup k (remove_vertex 0 sample_directed).edges_ =
          lookup k sample_directed.edges_)) :=
  ⟨by decide, C2_remove_vertex_purges sample_directed 0 (by decide)⟩

/-- C3: `get_vertex` fails with `NotFound` when the identifier is absent,
`get_edge` fails with `NotFound` when no such edge exists, `add_edge` fails
with `NotFound` when an endpoint is absent, and a failing `add_edge` leaves
the container state unchanged (all-or-nothing mutation; the two getters never
mutate). -/
theorem C3_not_found_failures :
    (∀ (V E : Type) (s : graph_spec) (g : graph V E s) (id : Nat),
      has_vertex id g = false →
      get_vertex id g = .error (.NotFound [id])) ∧
    (∀ (V E : Type) (s : graph_spec) (g : graph V E s) (a b : Nat),
      has_edge a b g = false →
      get_edge a b g = .error (.NotFound [a, b])) ∧
    (∀ (V E : Type) (s : graph_spec) (g : graph V E s) (a b : Nat) (e : E),
      has_vertex a g = false ∨ has_vertex b g = false →
      (∃ ids, add_edge a b e g = .error (.NotFound ids)) ∧
        step g (.addEdge a b e) = g) := by
  refine ⟨?_, ?_, ?_⟩
  · intro V E s g id h
    unfold get_vertex
    cases ho : lookup id g.vertices_ with
    | none => rfl
    | some v => simp [has_vertex, ho] at h
  · intro V E s g a b h
    unfold get_edge
    cases ho : lookup (canonical_edge_id s a b) g.edges_ with
    | none => rfl
    | some e => simp [has_edge, ho] at h
  · intro V E s g a b e h
    have hg : (has_vertex a g && has_vertex b g) = false := by
      rcases h with h | h <;> simp [h]
    constructor
    · refine ⟨(if has_vertex a g then [] else [a]) ++
        (if has_vertex b g then [] else [b]), ?_⟩
      unfold add_edge
      rw [if_neg (by simp [hg])]
    · rcases step_add_edge_cases g a b e with hst | ⟨g2, hok, hst⟩
      · exact hst
      · unfold add_edge at hok
        rw [if_neg (by simp [hg])] at hok
        cases hok

/-- Witness for C3 at concrete inputs on the empty directed container. -/
theorem C3_not_found_failures_witness :
    get_vertex 9 (empty_graph Nat Nat graph_spec.DIRECTED) =
      .error (.NotFound [9]) ∧
    get_edge 0 1 (empty_graph Nat Nat graph_spec.DIRECTED) =
      .error (.NotFound [0, 1]) ∧
    ((∃ ids, add_edge 0 1 5 (empty_graph Nat Nat graph_spec.DIRECTED) =
        .error (.NotFound ids)) ∧
      step (empty_graph Nat Nat graph_spec.DIRECTED) (.addEdge 0 1 5) =
        empty_graph Nat Nat graph_spec.DIRECTED) :=
  ⟨C3_not_found_failures.1 Nat Nat _ _ 9 (by decide),
   C3_not_found_failures.2.1 Nat Nat _ _ 0 1 (by decide),
   C3_not_found_failures.2.2 Nat Nat _ _ 0 1 5 (Or.inl (by decide))⟩

/-- C4: re-adding an edge between existing endpoints that already have one
replaces the stored payload, keeps `edge_count` unchanged (single-edge,
non-multigraph contract), and a following `get_edge` yields the new
payload. -/
theorem C4_add_edge_replaces {V E : Type} {s : graph_spec}
    (g : graph V E s) (a b : Nat) (e2 : E)
    (ha : has_vertex a g = true) (hb : has_vertex b g = true)
    (hedge : has_edge a b g = true) :
    ∃ g2, add_edge a b e2 g = .ok g2 ∧
      edge_count g2 = edge_count g ∧ get_edge a b g2 = .ok e2 := by
  unfold add_edge
  rw [if_pos (by rw [ha, hb]; rfl)]
  refine ⟨_, rfl, ?_, ?_⟩
  · show (insert_or_assign (canonical_edge_id s a b) e2 g.edges_).length =
      g.edges_.length
    exact length_insert_or_assign e2 hedge
  · unfold get_edge
    rw [lookup_insert_or_assign_self]

/-- Witness for C4 at a concrete input: replacing the payload of edge
`0 → 1` of `sample_directed` by 8. -/
theorem C4_add_edge_replaces_witness :
    has_vertex 0 sample_directed = true ∧
    has_vertex 1 sample_directed = true ∧
    has_edge 0 1 sample_directed = true ∧
    ∃ g2, add_edge 0 1 8 sample_directed = .ok g2 ∧
      edge_count g2 = edge_count sample_directed ∧
      get_edge 0 1 g2 = .ok 8 :=
  ⟨by decide, by decide, by decide,
    C4_add_edge_replaces sample_directed 0 1 8
      (by decide) (by decide) (by decide)⟩

/-- C5: for undirected graphs `has_edge a b = has_edge b a` on every state;
for directed graphs `has_edge a b` is true iff the key `(a, b)` in that order
is in the edge table, and the equivalence fails in general, e.g. on
`sample_directed` where `has_edge 0 1` holds but `has_edge 1 0` does not. -/
theorem C5_has_edge_symmetry :
    (∀ (V E : Type) (g : graph V E graph_spec.UNDIRECTED) (a b : Nat),
      has_edge a b g = has_edge b a g) ∧
    (∀ (V E : Type) (g : graph V E graph_spec.DIRECTED) (a b : Nat),
      has_edge a b g = (lookup (a, b) g.edges_).isSome) ∧
    has_edge 0 1 sample_directed = true ∧
    has_edge 1 0 sample_directed = false := by
  refine ⟨?_, ?_, ?_, ?_⟩
  · intro V E g a b
    unfold has_edge
    rw [canonical_swap_undirected]
  · intro V E g a b
    rfl
  · decide
  · decide

/-- C6: round-trip — whenever `add_edge a b e` succeeds, `get_edge a b` on
the new state returns exactly `e`; under a primitive-numeric edge
parameterisation the returned handle's weight accessor yields the raw
number that was added. -/
theorem C6_round_trip :
    (∀ (V E : Type) (s : graph_spec) (g g2 : graph V E s) (a b : Nat)
      (e : E), add_edge a b e g = .ok g2 → get_edge a b g2 = .ok e) ∧
    (∀ (V : Type) (s : graph_spec)
      (g g2 : graph V (primitive_numeric_adapter Nat) s) (a b w : Nat),
      add_edge_numeric a b w g = .ok g2 →
      ∃ h2, get_edge a b g2 = .ok h2 ∧ h2.get_weight = w) :=
  ⟨fun _ _ _ _ _ _ _ _ hok => add_edge_get_edge hok,
   fun _ _ _ _ _ _ w hok => ⟨⟨w⟩, add_edge_get_edge hok, rfl⟩⟩

/-- Witness for C6 at concrete inputs: adding edge `0 — 1` with payload 7
(generic) and with raw weight 3 (numeric parameterisation). -/
theorem C6_round_trip_witness :
    (add_edge 0 1 7 sample_two_vertices =
      .ok (step sample_two_vertices (.addEdge 0 1 7)) ∧
      get_edge 0 1 (step sample_two_vertices (.addEdge 0 1 7)) = .ok 7) ∧
    (add_edge_numeric 0 1 3 sample_two_vertices_numeric =
      .ok (step sample_two_vertices_numeric (.addEdge 0 1 ⟨3⟩)) ∧
      ∃ h2, get_edge 0 1 (step sample_two_vertices_numeric
        (.addEdge 0 1 ⟨3⟩)) = .ok h2 ∧ h2.get_weight = 3) :=
  ⟨⟨by rfl, C6_round_trip.1 Nat Nat _ sample_two_vertices
      (step sample_two_vertices (.addEdge 0 1 7)) 0 1 7 (by rfl)⟩,
   ⟨by rfl, C6_round_trip.2 Nat _ sample_two_vertices_numeric
      (step sample_two_vertices_numeric (.addEdge 0 1 ⟨3⟩)) 0 1 3 (by rfl)⟩⟩

/-- C7: the vertex-identifier counter never decreases under any public
operation; the identifiers returned by the `add_vertex` calls of any
operation sequence on a fresh container are pairwise distinct; and an
identifier removed by `remove_vertex` is never returned by any later
`add_vertex`. -/
theorem C7_identifier_uniqueness :
    (∀ (V E : Type) (s : graph_spec) (g : graph V E s) (op : Op V E),
      g.vertex_id_supplier_ ≤ (step g op).vertex_id_supplier_) ∧
    (∀ (V E : Type) (s : graph_spec) (ops : List (Op V E)),
      (addedIds (empty_graph V E s) ops).Pairwise (· ≠ ·)) ∧
    (∀ (V E : Type) (s : graph_spec) (ops1 : List (Op V E)) (id : Nat)
      (ops2 : List (Op V E)),
      has_vertex id (run (empty_graph V E s) ops1) = true →
      id ∉ addedIds (step (run (empty_graph V E s) ops1)
        (.removeVertex id)) ops2) := by
  refine ⟨?_, ?_, ?_⟩
  · intro V E s g op
    exact step_supplier_mono g op
  · intro V E s ops
    exact (addedIds_pairwise_lt ops _).imp Nat.ne_of_lt
  · intro V E s ops1 id ops2 hid hmem
    have hbound : vertex_ids_bounded (run (empty_graph V E s) ops1) := by
      apply vertex_ids_bounded_run
      intro p hp
      simp [empty_graph] at hp
    obtain ⟨v, hv⟩ := Option.isSome_iff_exists.1 hid
    have hlt : id < (run (empty_graph V E s) ops1).vertex_id_supplier_ :=
      hbound (id, v) (lookup_mem hv)
    have hge := addedIds_lb ops2 _ id hmem
    rw [show (step (run (empty_graph V E s) ops1) (.removeVertex id)) =
      remove_vertex id (run (empty_graph V E s) ops1) from rfl,
      remove_vertex_supplier] at hge
    omega

/-- Witness for C7 at a concrete input: vertex 0 exists after one
`add_vertex`; after removing it, a later `add_vertex` does not return 0. -/
theorem C7_identifier_uniqueness_witness :
    has_vertex 0 (run (empty_graph Nat Nat graph_spec.DIRECTED)
      [.addVertex 5]) = true ∧
    0 ∉ addedIds (step (run (empty_graph Nat Nat graph_spec.DIRECTED)
      [.addVertex 5]) (.removeVertex 0)) [.addVertex 6] :=
  ⟨by decide,
    C7_identifier_uniqueness.2.2 Nat Nat _ [.addVertex 5] 0 [.addVertex 6]
      (by decide)⟩

/-- C8: `remove_edge` and `remove_vertex` on an absent target are silent
no-ops leaving the state unchanged, and repeating either call leaves the
state identical to what it was after the first call. -/
theorem C8_remove_idempotent :
    (∀ (V E : Type) (s : graph_spec) (g : graph V E s) (a b : Nat),
      has_edge a b g = false → remove_edge a b g = g) ∧
    (∀ (V E : Type) (s : graph_spec) (g : graph V E s) (id : Nat),
      has_vertex id g = false → remove_vertex id g = g) ∧
    (∀ (V E : Type) (s : graph_spec) (g : graph V E s) (a b : Nat),
      remove_edge a b (remove_edge a b g) = remove_edge a b g) ∧
    (∀ (V E : Type) (s : graph_spec) (g : graph V E s) (id : Nat),
      remove_vertex id (remove_vertex id g) = remove_vertex id g) := by
  refine ⟨?_, ?_, ?_, ?_⟩
  · intro V E s g a b h
    exact remove_edge_absent h
  · intro V E s g id h
    exact remove_vertex_absent h
  · intro V E s g a b
    exact remove_edge_absent (has_edge_remove_edge_self g a b)
  · intro V E s g id
    exact remove_vertex_absent (has_vertex_remove_vertex_self g id)

/-- Witness for C8 at concrete inputs: removing the absent edge `(0, 5)` and
the absent vertex 9 from `sample_directed` is a no-op. -/
theorem C8_remove_idempotent_witness :
    has_edge 0 5 sample_directed = false ∧
    remove_edge 0 5 sample_directed = sample_directed ∧
    has_vertex 9 sample_directed = false ∧
    remove_vertex 9 sample_directed = sample_directed :=
  ⟨by decide,
    C8_remove_idempotent.1 Nat Nat _ sample_directed 0 5 (by decide),
   by decide,
    C8_remove_idempotent.2.1 Nat Nat _ sample_directed 9 (by decide)⟩

/-- C9: on every reachable container state, if either endpoint is absent
from the vertex table then `has_edge` returns false (it is total and never
fails). -/
theorem C9_has_edge_absent_vertex {V E : Type} {s : graph_spec}
    (ops : List (Op V E)) (a b : Nat)
    (h : has_vertex a (run (empty_graph V E s) ops) = false ∨
      has_vertex b (run (empty_graph V E s) ops) = false) :
    has_edge a b (run (empty_graph V E s) ops) = false := by
  cases hbe : has_edge a b (run (empty_graph V E s) ops) with
  | false => rfl
  | true =>
    obtain ⟨hva, hvb⟩ :=
      has_edge_vertices_present (inv_run ops _ inv_empty) hbe
    rcases h with h | h
    · rw [hva] at h
      simp at h
    · rw [hvb] at h
      simp at h

/-- Witness for C9 at a concrete input: vertex 5 is absent after one
`add_vertex`, so `has_edge 0 5` is false. -/
theorem C9_has_edge_absent_vertex_witness :
    has_vertex 5 (run (empty_graph Nat Nat graph_spec.DIRECTED)
      [.addVertex 3]) = false ∧
    has_edge 0 5 (run (empty_graph Nat Nat graph_spec.DIRECTED)
      [.addVertex 3]) = false :=
  ⟨by decide,
    C9_has_edge_absent_vertex [.addVertex 3] 0 5 (Or.inr (by decide))⟩

/-- C10: the identifier counter of a fresh container starts at 0,
`add_vertex` returns the current counter and increments it by exactly one,
and after any operation sequence the counter equals the number of
`add_vertex` calls, so the n-th `add_vertex` on a container returns n-1
regardless of intervening removals. -/
theorem C10_consecutive_identifiers :
    (∀ (V E : Type) (s : graph_spec),
      (empty_graph V E s).vertex_id_supplier_ = 0) ∧
    (∀ (V E : Type) (s : graph_spec) (g : graph V E s) (v : V),
      (add_vertex v g).1 = g.vertex_id_supplier_ ∧
      (add_vertex v g).2.vertex_id_supplier_ = g.vertex_id_supplier_ + 1) ∧
    (∀ (V E : Type) (s : graph_spec) (ops : List (Op V E)),
      (run (empty_graph V E s) ops).vertex_id_supplier_ =
        countAddVertex ops) ∧
    (∀ (V E : Type) (s : graph_spec) (ops : List (Op V E)) (v : V),
      (add_vertex v (run (empty_graph V E s) ops)).1 =
        countAddVertex ops) := by
  refine ⟨?_, ?_, ?_, ?_⟩
  · intro V E s
    rfl
  · intro V E s g v
    exact ⟨rfl, rfl⟩
  · intro V E s ops
    rw [run_supplier]
    exact Nat.zero_add _
  · intro V E s ops v
    rw [add_vertex_fst, run_supplier]
    exact Nat.zero_add _

end Graaf
